import Mathlib

/-!
# Verification of the Z-Anatomy ontology extractor

Shallow embedding of `src/scripts/extract-z-anatomy-ontology.py`.

The script walks a scene graph (named collections of typed, named objects),
classifies each mesh into an anatomical system by keyword matching, derives a
normalized part identifier and synonyms, and accumulates one `PartRecord` per
uniquely named mesh object.

Python's character classes `\w` and `\s` and `str.lower()` are modelled over
their ASCII fragments (the script's collection names and the inputs of the
claims are ASCII).
-/

namespace ZAnatomy

/-- ASCII model of Python's regex class `\w`: letters, digits, underscore. -/
def isWordChar (c : Char) : Bool :=
  (48 ≤ c.toNat && c.toNat ≤ 57) || (65 ≤ c.toNat && c.toNat ≤ 90) ||
  (97 ≤ c.toNat && c.toNat ≤ 122) || c.toNat == 95

/-- ASCII model of Python's regex class `\s`: space, tab, LF, VT, FF, CR. -/
def isSpaceChar (c : Char) : Bool :=
  c.toNat == 32 || c.toNat == 9 || c.toNat == 10 ||
  c.toNat == 11 || c.toNat == 12 || c.toNat == 13

/-- A character kept by the first substitution `re.sub(r'[^\w\s-]', '', ...)`. -/
def keepChar (c : Char) : Bool :=
  isWordChar c || isSpaceChar c || c.toNat == 45

/-- A character matched by the second substitution's class `[-\s]`. -/
def isHyphenSpace (c : Char) : Bool :=
  c.toNat == 45 || isSpaceChar c

/-- ASCII model of `str.lower()` on one character. -/
def lowerChar (c : Char) : Char :=
  if 65 ≤ c.toNat ∧ c.toNat ≤ 90 then Char.ofNat (c.toNat + 32) else c

/-- `str.lower()` on a string (ASCII model). -/
def lowerStr (s : String) : String :=
  ⟨s.data.map lowerChar⟩

/-- Scan for `re.sub(r'[-\s]+', '_', ...)`; the flag records whether the
previous character belonged to a hyphen/whitespace run. -/
def collapseAux : Bool → List Char → List Char
  | _, [] => []
  | inRun, c :: cs =>
    if isHyphenSpace c then
      if inRun then collapseAux true cs else '_' :: collapseAux true cs
    else c :: collapseAux false cs

/-- `re.sub(r'[-\s]+', '_', ...)`: each maximal run of hyphens/whitespace
becomes a single underscore. -/
def collapseRuns (l : List Char) : List Char :=
  collapseAux false l

/-- `str.strip('_')`: drop leading and trailing underscores. -/
def stripUnderscores (l : List Char) : List Char :=
  ((l.dropWhile (· == '_')).reverse.dropWhile (· == '_')).reverse

/-- `normalize_part_id` from the script: lowercase, strip non-`[\w\s-]`
characters, collapse `[-\s]+` runs to `_`, strip outer underscores. -/
def normalize_part_id (name : String) : String :=
  ⟨stripUnderscores (collapseRuns ((name.data.map lowerChar).filter keepChar))⟩

/-- Python's substring test `pat in s`, on character lists. -/
def hasSubstr (pat : List Char) : List Char → Bool
  | [] => pat.isEmpty
  | c :: cs => pat.isPrefixOf (c :: cs) || hasSubstr pat cs

/-- True when some keyword of `kws` occurs in `nl`. -/
def keywordIn (nl : List Char) (kws : List String) : Bool :=
  kws.any (fun k => hasSubstr k.data nl)

/-- `determine_system` from the script: first matching keyword set of an
ordered checklist decides the system; default is SKELETAL. -/
def determine_system (collection_name object_name : String) : String :=
  let nl := (lowerStr (collection_name ++ " " ++ object_name)).data
  if keywordIn nl ["skeleton", "bone", "skull", "vertebra", "rib", "femur"] then "SKELETAL"
  else if keywordIn nl ["muscle", "muscular"] then "MUSCULAR"
  else if keywordIn nl ["nerve", "nervous", "brain", "spinal"] then "NERVOUS"
  else if keywordIn nl ["heart", "cardiac", "artery", "vein", "blood"] then "CARDIOVASCULAR"
  else if keywordIn nl ["lung", "respiratory", "trachea", "bronch"] then "RESPIRATORY"
  else if keywordIn nl ["stomach", "intestin", "digestive", "liver", "pancrea"] then "DIGESTIVE"
  else if keywordIn nl ["kidney", "bladder", "urinary", "ureter"] then "URINARY"
  else if keywordIn nl ["lymph", "spleen", "thymus"] then "LYMPHATIC"
  else if keywordIn nl ["skin", "integument", "hair"] then "INTEGUMENTARY"
  else "SKELETAL"

/-- Fuel-driven scan for Python's `str.replace`: replace every non-overlapping
occurrence of the pattern, left to right.  The fuel is the length of the
scanned list, so it never runs out. -/
def replaceAux (pat rep : List Char) : Nat → List Char → List Char
  | _, [] => []
  | 0, l => l
  | fuel + 1, c :: cs =>
    if pat.isPrefixOf (c :: cs) then
      rep ++ replaceAux pat rep fuel (cs.drop (pat.length - 1))
    else c :: replaceAux pat rep fuel cs

/-- Python's `s.replace(pat, rep)` (for a non-empty pattern). -/
def replaceStr (s pat rep : String) : String :=
  ⟨replaceAux pat.data rep.data s.data.length s.data⟩

/-- One `{synonym, language, priority}` triple of the generated ontology. -/
structure Synonym where
  synonym : String
  language : String
  priority : Nat
deriving DecidableEq, Repr

/-- One part record of the generated ontology. -/
structure PartRecord where
  partId : String
  name : String
  system : String
  modelPath : String
  meshName : String
  synonyms : List Synonym
deriving DecidableEq, Repr

/-- Synonym generation from the script: the lowercased display name at
priority 10, plus a left- or right-normalized variant at priority 8 when the
lowercased name contains "left" (or, failing that, "right"). -/
def generate_synonyms (name : String) : List Synonym :=
  let low := lowerStr name
  let base : List Synonym := [⟨low, "en", 10⟩]
  if hasSubstr "left".data low.data then
    base ++ [⟨replaceStr (replaceStr low "left" "l") ".l" "", "en", 8⟩]
  else if hasSubstr "right".data low.data then
    base ++ [⟨replaceStr (replaceStr low "right" "r") ".r" "", "en", 8⟩]
  else base

/-- The script's `system_paths` dictionary. -/
def system_paths : List (String × String) :=
  [("SKELETAL", "skeleton/skeleton-full.glb"),
   ("MUSCULAR", "muscular/muscles-full.glb"),
   ("CARDIOVASCULAR", "cardiovascular/cardiovascular-full.glb"),
   ("NERVOUS", "nervous/nervous-full.glb"),
   ("RESPIRATORY", "respiratory/visceral-full.glb"),
   ("DIGESTIVE", "respiratory/visceral-full.glb")]

/-- `f"/models/{system_paths.get(system, 'skeleton/skeleton-full.glb')}"`. -/
def modelPathFor (system : String) : String :=
  "/models/" ++ (((system_paths.find? (fun p => p.1 == system)).map Prod.snd).getD
    "skeleton/skeleton-full.glb")

/-- A scene object: the `type` and `name` fields the script reads. -/
structure Obj where
  type : String
  name : String
deriving DecidableEq, Repr

/-- A scene-graph snapshot: named collections of objects.  Lookup is by
collection name (`bpy.data.collections[name]`). -/
abbrev Scene := List (String × List Obj)

/-- `bpy.data.collections` lookup: the first collection with the given name,
if any. -/
def lookupCollection (scene : Scene) (cn : String) : Option (List Obj) :=
  (scene.find? (fun p => p.1 == cn)).map Prod.snd

/-- The part entry built for one object (`part_entry` in the script), as a
function of the collection's system and the object's display name. -/
def mkPartEntry (system name : String) : PartRecord :=
  { partId := normalize_part_id name
    name := name
    system := system
    modelPath := modelPathFor system
    meshName := name
    synonyms := generate_synonyms name }

/-- The per-collection object loop: skip non-meshes and empty names, skip
names already processed, otherwise record the name and emit a part entry.
Returns the emitted entries and the updated processed-name set. -/
def processObjs (system : String) : List Obj → List String → List PartRecord × List String
  | [], processed => ([], processed)
  | o :: os, processed =>
    if o.type = "MESH" ∧ o.name ≠ "" then
      if o.name ∈ processed then processObjs system os processed
      else
        let rest := processObjs system os (o.name :: processed)
        (mkPartEntry system o.name :: rest.1, rest.2)
    else processObjs system os processed

/-- The collection loop: missing collections are skipped; a present one is
classified by `determine_system(collection_name, "")` and its objects are
processed against the shared processed-name set. -/
def processCollections (scene : Scene) : List String → List String → List PartRecord
  | [], _ => []
  | cn :: rest, processed =>
    match lookupCollection scene cn with
    | none => processCollections scene rest processed
    | some objs =>
      let out := processObjs (determine_system cn "") objs processed
      out.1 ++ processCollections scene rest out.2

/-- The script's fixed `main_collections` list. -/
def main_collections : List String :=
  ["1: Skeletal system",
   "4: Muscular system",
   "5: Cardiovascular system",
   "7: Nervous system & Sense organs",
   "8: Visceral systems"]

/-- `extract_ontology`: the full record list accumulated over the five main
collections, starting from an empty processed-name set. -/
def extract_ontology (scene : Scene) : List PartRecord :=
  processCollections scene main_collections []

/-- Whether `objs` contains a processable mesh (type `"MESH"`, non-empty
name) whose display name is `n`. -/
def hasValidNamed (objs : List Obj) (n : String) : Bool :=
  objs.any (fun o => o.type == "MESH" && o.name != "" && o.name == n)

/-- Whether the collection named `cn` is present in the scene and contains a
processable mesh named `n`. -/
def collHasName (scene : Scene) (cn n : String) : Bool :=
  match lookupCollection scene cn with
  | some objs => hasValidNamed objs n
  | none => false

/-- The first main collection (in traversal order) containing a processable
mesh named `n`, if any. -/
def firstCollectionFor (scene : Scene) (n : String) : Option String :=
  main_collections.find? (fun cn => collHasName scene cn n)

example : normalize_part_id "Femur.R" = "femurr" := by decide

example : normalize_part_id "  Left--Lung  " = "left_lung" := by decide

example : determine_system "1: Skeletal system" "" = "SKELETAL" := by decide

example : determine_system "5: Cardiovascular system" "" = "SKELETAL" := by decide

example : determine_system "4: Muscular system" "" = "MUSCULAR" := by decide

example : determine_system "8: Visceral systems" "" = "SKELETAL" := by decide

example : determine_system "7: Nervous system & Sense organs" "" = "NERVOUS" := by decide

example : generate_synonyms "Lung.L" = [⟨"lung.l", "en", 10⟩] := by decide

example : generate_synonyms "Left lung" =
    [⟨"left lung", "en", 10⟩, ⟨"l lung", "en", 8⟩] := by decide

example :
    extract_ontology [("1: Skeletal system", [⟨"MESH", "Skull"⟩])] =
      [{ partId := "skull", name := "Skull", system := "SKELETAL",
         modelPath := "/models/skeleton/skeleton-full.glb", meshName := "Skull",
         synonyms := [⟨"skull", "en", 10⟩] }] := by decide

@[simp] theorem mkPartEntry_name (system name : String) :
    (mkPartEntry system name).name = name := rfl

@[simp] theorem mkPartEntry_system (system name : String) :
    (mkPartEntry system name).system = system := rfl

@[simp] theorem mkPartEntry_modelPath (system name : String) :
    (mkPartEntry system name).modelPath = modelPathFor system := rfl

theorem hasValidNamed_nil (n : String) : hasValidNamed [] n = false := rfl

theorem hasValidNamed_cons (o : Obj) (os : List Obj) (n : String) :
    hasValidNamed (o :: os) n = true ↔
      (o.type = "MESH" ∧ o.name ≠ "" ∧ o.name = n) ∨ hasValidNamed os n = true := by
  simp [hasValidNamed, Bool.and_eq_true, beq_iff_eq, bne_iff_ne, and_assoc]

/-- Membership in the processed-name set after one collection's object loop:
the old set plus every processable mesh name of the collection. -/
theorem processObjs_snd_mem (system : String) (objs : List Obj) (P : List String)
    (n : String) :
    n ∈ (processObjs system objs P).2 ↔ n ∈ P ∨ hasValidNamed objs n = true := by
  induction objs generalizing P with
  | nil => simp [processObjs, hasValidNamed]
  | cons o os ih =>
    by_cases hv : o.type = "MESH" ∧ o.name ≠ ""
    · by_cases hp : o.name ∈ P
      · rw [processObjs, if_pos hv, if_pos hp, ih, hasValidNamed_cons]
        constructor
        · rintro (h | h)
          · exact Or.inl h
          · exact Or.inr (Or.inr h)
        · rintro (h | ⟨_, _, hna⟩ | h)
          · exact Or.inl h
          · exact Or.inl (hna ▸ hp)
          · exact Or.inr h
      · rw [processObjs, if_pos hv, if_neg hp]
        rw [ih, hasValidNamed_cons]
        simp only [List.mem_cons]
        constructor
        · rintro ((h | h) | h)
          · exact Or.inr (Or.inl ⟨hv.1, hv.2, h.symm⟩)
          · exact Or.inl h
          · exact Or.inr (Or.inr h)
        · rintro (h | ⟨_, _, hna⟩ | h)
          · exact Or.inl (Or.inr h)
          · exact Or.inl (Or.inl hna.symm)
          · exact Or.inr h
    · rw [processObjs, if_neg hv, ih, hasValidNamed_cons]
      constructor
      · rintro (h | h)
        · exact Or.inl h
        · exact Or.inr (Or.inr h)
      · rintro (h | ⟨hty, hne, _⟩ | h)
        · exact Or.inl h
        · exact absurd ⟨hty, hne⟩ hv
        · exact Or.inr h

/-- Membership in one collection's emitted records: exactly the part entries
of processable mesh names that were not yet in the processed set. -/
theorem processObjs_fst_mem (system : String) (objs : List Obj) (P : List String)
    (r : PartRecord) :
    r ∈ (processObjs system objs P).1 ↔
      r = mkPartEntry system r.name ∧ r.name ∉ P ∧ hasValidNamed objs r.name = true := by
  induction objs generalizing P with
  | nil => simp [processObjs, hasValidNamed]
  | cons o os ih =>
    by_cases hv : o.type = "MESH" ∧ o.name ≠ ""
    · by_cases hp : o.name ∈ P
      · rw [processObjs, if_pos hv, if_pos hp, ih, hasValidNamed_cons]
        constructor
        · rintro ⟨heq, hnp, hval⟩
          exact ⟨heq, hnp, Or.inr hval⟩
        · rintro ⟨heq, hnp, h | hval⟩
          · exact absurd (h.2.2 ▸ hp) hnp
          · exact ⟨heq, hnp, hval⟩
      · rw [processObjs, if_pos hv, if_neg hp]
        simp only [List.mem_cons]
        rw [ih, hasValidNamed_cons]
        constructor
        · rintro (rfl | ⟨heq, hnp, hval⟩)
          · exact ⟨rfl, hp, Or.inl ⟨hv.1, hv.2, rfl⟩⟩
          · constructor
            · exact heq
            · refine ⟨fun hin => hnp (List.mem_cons_of_mem _ hin), Or.inr hval⟩
        · rintro ⟨heq, hnp, ⟨_, _, hna⟩ | hval⟩
          · exact Or.inl (hna ▸ heq)
          · by_cases hon : r.name = o.name
            · exact Or.inl (hon ▸ heq)
            · refine Or.inr ⟨heq, ?_, hval⟩
              simp only [List.mem_cons]
              rintro (h | h)
              · exact hon h
              · exact hnp h
    · rw [processObjs, if_neg hv, ih, hasValidNamed_cons]
      constructor
      · rintro ⟨heq, hnp, hval⟩
        exact ⟨heq, hnp, Or.inr hval⟩
      · rintro ⟨heq, hnp, ⟨hty, hne, _⟩ | hval⟩
        · exact absurd ⟨hty, hne⟩ hv
        · exact ⟨heq, hnp, hval⟩

/-- The emitted names of one collection are pairwise distinct. -/
theorem processObjs_fst_nodup (system : String) (objs : List Obj) (P : List String) :
    ((processObjs system objs P).1.map (fun r => r.name)).Nodup := by
  induction objs generalizing P with
  | nil => simp [processObjs]
  | cons o os ih =>
    by_cases hv : o.type = "MESH" ∧ o.name ≠ ""
    · by_cases hp : o.name ∈ P
      · rw [processObjs, if_pos hv, if_pos hp]; exact ih P
      · rw [processObjs, if_pos hv, if_neg hp]
        simp only [List.map_cons, List.nodup_cons]
        refine ⟨?_, ih (o.name :: P)⟩
        intro hmem
        rcases List.mem_map.mp hmem with ⟨r, hr, hrn⟩
        have := (processObjs_fst_mem system os (o.name :: P) r).mp hr
        exact this.2.1 (hrn ▸ List.mem_cons_self o.name P)
    · rw [processObjs, if_neg hv]; exact ih P

/-- A record appears in the output of the collection loop iff its name is not
yet processed and its part entry is that of the first remaining collection
containing a processable mesh so named. -/
theorem processCollections_mem (scene : Scene) (colls : List String) (P : List String)
    (r : PartRecord) :
    r ∈ processCollections scene colls P ↔
      r.name ∉ P ∧ ∃ cn, colls.find? (fun c => collHasName scene c r.name) = some cn ∧
        r = mkPartEntry (determine_system cn "") r.name := by
  induction colls generalizing P with
  | nil => simp [processCollections]
  | cons cn rest ih =>
    cases h : lookupCollection scene cn with
    | none =>
      have hc : (fun c => collHasName scene c r.name) cn = false := by
        simp [collHasName, h]
      simp only [processCollections, h]
      rw [ih, List.find?_cons_of_neg _ (by simp [hc])]
    | some objs =>
      have hc : collHasName scene cn r.name = hasValidNamed objs r.name := by
        simp [collHasName, h]
      simp only [processCollections, h, List.mem_append]
      rw [ih, processObjs_fst_mem]
      by_cases hvn : hasValidNamed objs r.name = true
      · rw [List.find?_cons_of_pos _ (by simp [hc, hvn])]
        constructor
        · rintro (⟨heq, hnp, _⟩ | ⟨hno2, _⟩)
          · exact ⟨hnp, cn, rfl, heq⟩
          · exact absurd ((processObjs_snd_mem _ _ _ _).mpr (Or.inr hvn)) hno2
        · rintro ⟨hnp, cn', hcn', heq⟩
          obtain rfl : cn = cn' := by simpa using hcn'
          exact Or.inl ⟨heq, hnp, hvn⟩
      · rw [List.find?_cons_of_neg _ (by simp [hc, hvn])]
        have hsnd : r.name ∈ (processObjs (determine_system cn "") objs P).2 ↔
            r.name ∈ P := by
          rw [processObjs_snd_mem]
          simp [hvn]
        constructor
        · rintro (⟨_, _, hval⟩ | ⟨hno2, hex⟩)
          · exact absurd hval hvn
          · exact ⟨fun hp => hno2 (hsnd.mpr hp), hex⟩
        · rintro ⟨hnp, hex⟩
          exact Or.inr ⟨fun h2 => hnp (hsnd.mp h2), hex⟩

/-- No display name occurs twice among the output records. -/
theorem processCollections_nodup (scene : Scene) (colls : List String) (P : List String) :
    ((processCollections scene colls P).map (fun r => r.name)).Nodup := by
  induction colls generalizing P with
  | nil => simp [processCollections]
  | cons cn rest ih =>
    cases h : lookupCollection scene cn with
    | none =>
      simp only [processCollections, h]
      exact ih P
    | some objs =>
      simp only [processCollections, h, List.map_append]
      rw [List.nodup_append]
      refine ⟨processObjs_fst_nodup _ _ _, ih _, ?_⟩
      intro a ha hb
      rcases List.mem_map.mp ha with ⟨r, hr, rfl⟩
      rcases List.mem_map.mp hb with ⟨r', hr', hname⟩
      have h1 := (processObjs_fst_mem _ _ _ _).mp hr
      have h2 := (processCollections_mem scene rest _ r').mp hr'
      exact h2.1 (hname ▸ (processObjs_snd_mem _ _ _ _).mpr (Or.inr h1.2.2))

/-- C1 (counterexample): synonym generation for the display name "Lung.L"
does not emit two synonyms — the lowercased name "lung.l" does not contain
"left", so no priority-8 variant is added. -/
theorem c1_lung_l_not_two_synonyms : (generate_synonyms "Lung.L").length ≠ 2 := by
  decide

/-- C1 (amended): for the display name "Lung.L", synonym generation emits
exactly one synonym, `{synonym := "lung.l", language := "en", priority := 10}`. -/
theorem c1_lung_l_synonyms :
    generate_synonyms "Lung.L" = [⟨"lung.l", "en", 10⟩] := by
  decide

/-- C2 (counterexample): `normalize_part_id "Femur.R"` is not `"femur_r"` —
the dot is deleted by the first substitution, so no underscore separates
"femur" and "r". -/
theorem c2_femur_r_not_underscored : normalize_part_id "Femur.R" ≠ "femur_r" := by
  decide

/-- C2 (amended): `normalize_part_id "Femur.R"` returns `"femurr"` (the dot
removed and case lowered, with no separator inserted in its place). -/
theorem c2_femur_r_normalized : normalize_part_id "Femur.R" = "femurr" := by
  decide

/-- C4: a scene with exactly one collection "1: Skeletal system" containing
exactly one mesh object "Skull" yields exactly one PartRecord, with partId
"skull", system "SKELETAL", and modelPath "/models/skeleton/skeleton-full.glb". -/
theorem c4_skull_end_to_end :
    extract_ontology [("1: Skeletal system", [⟨"MESH", "Skull"⟩])] =
      [{ partId := "skull", name := "Skull", system := "SKELETAL",
         modelPath := "/models/skeleton/skeleton-full.glb", meshName := "Skull",
         synonyms := [⟨"skull", "en", 10⟩] }] := by
  decide

/-- C6: whenever the combined lowercased collection/object text contains both
"muscle" and "bone", `determine_system` returns "SKELETAL": the skeletal
keyword set is evaluated first and "bone" is one of its keywords. -/
theorem c6_bone_beats_muscle (cn objName : String)
    (_hm : hasSubstr "muscle".data (lowerStr (cn ++ " " ++ objName)).data = true)
    (hb : hasSubstr "bone".data (lowerStr (cn ++ " " ++ objName)).data = true) :
    determine_system cn objName = "SKELETAL" := by
  have hk : keywordIn (lowerStr (cn ++ " " ++ objName)).data
      ["skeleton", "bone", "skull", "vertebra", "rib", "femur"] = true := by
    simp only [keywordIn, List.any_eq_true]
    exact ⟨"bone", by simp, hb⟩
  unfold determine_system
  simp only [hk, if_true]

/-- C6 witness: the concrete pair ("bone muscle", "") satisfies both
substring hypotheses and classifies as SKELETAL. -/
theorem c6_bone_beats_muscle_witness :
    determine_system "bone muscle" "" = "SKELETAL" :=
  c6_bone_beats_muscle "bone muscle" "" (by decide) (by decide)

/-- C7: model-path resolution is the fixed total mapping described by the
claim, including the SKELETAL fallback for URINARY, LYMPHATIC and
INTEGUMENTARY. -/
theorem c7_model_paths :
    modelPathFor "SKELETAL" = "/models/skeleton/skeleton-full.glb" ∧
    modelPathFor "MUSCULAR" = "/models/muscular/muscles-full.glb" ∧
    modelPathFor "CARDIOVASCULAR" = "/models/cardiovascular/cardiovascular-full.glb" ∧
    modelPathFor "NERVOUS" = "/models/nervous/nervous-full.glb" ∧
    modelPathFor "RESPIRATORY" = "/models/respiratory/visceral-full.glb" ∧
    modelPathFor "DIGESTIVE" = "/models/respiratory/visceral-full.glb" ∧
    modelPathFor "URINARY" = "/models/skeleton/skeleton-full.glb" ∧
    modelPathFor "LYMPHATIC" = "/models/skeleton/skeleton-full.glb" ∧
    modelPathFor "INTEGUMENTARY" = "/models/skeleton/skeleton-full.glb" := by
  decide

/-- C3: every output record's system is SKELETAL, MUSCULAR or NERVOUS, and
its model path one of the three corresponding files; the three collection
names "1: Skeletal system", "5: Cardiovascular system" and "8: Visceral
systems" match none of the nine keyword sets and default to SKELETAL. -/
theorem c3_output_systems_closed :
    (∀ (scene : Scene), ∀ r ∈ extract_ontology scene,
        r.system ∈ ["SKELETAL", "MUSCULAR", "NERVOUS"] ∧
        r.modelPath ∈ ["/models/skeleton/skeleton-full.glb",
          "/models/muscular/muscles-full.glb", "/models/nervous/nervous-full.glb"]) ∧
    (∀ cn ∈ ["1: Skeletal system", "5: Cardiovascular system", "8: Visceral systems"],
        keywordIn (lowerStr (cn ++ " " ++ "")).data
          ["skeleton", "bone", "skull", "vertebra", "rib", "femur", "muscle", "muscular",
           "nerve", "nervous", "brain", "spinal", "heart", "cardiac", "artery", "vein",
           "blood", "lung", "respiratory", "trachea", "bronch", "stomach", "intestin",
           "digestive", "liver", "pancrea", "kidney", "bladder", "urinary", "ureter",
           "lymph", "spleen", "thymus", "skin", "integument", "hair"] = false ∧
        determine_system cn "" = "SKELETAL") := by
  constructor
  · intro scene r hr
    obtain ⟨-, cn, hfind, heq⟩ := (processCollections_mem scene main_collections [] r).mp hr
    have hcn : cn ∈ main_collections := List.mem_of_find?_eq_some hfind
    have hsys : r.system = determine_system cn "" := by rw [heq]; rfl
    have hpath : r.modelPath = modelPathFor (determine_system cn "") := by rw [heq]; rfl
    rw [hsys, hpath]
    fin_cases hcn <;> decide
  · decide

/-- C3 witness: the Skull record of a one-collection scene lands in the
allowed system set. -/
theorem c3_witness :
    (mkPartEntry "SKELETAL" "Skull").system ∈ ["SKELETAL", "MUSCULAR", "NERVOUS"] :=
  (c3_output_systems_closed.1 [("1: Skeletal system", [⟨"MESH", "Skull"⟩])]
    (mkPartEntry "SKELETAL" "Skull") (by decide)).1

/-- C5: names are deduplicated globally — the output names are pairwise
distinct, every record is the part entry of the first traversal-order
collection containing a processable mesh of that name, and every name with
such a first collection does yield its record. -/
theorem c5_global_dedup (scene : Scene) :
    ((extract_ontology scene).map (fun r => r.name)).Nodup ∧
    (∀ r ∈ extract_ontology scene, ∃ cn,
        firstCollectionFor scene r.name = some cn ∧
        r = mkPartEntry (determine_system cn "") r.name) ∧
    (∀ n cn, firstCollectionFor scene n = some cn →
        mkPartEntry (determine_system cn "") n ∈ extract_ontology scene) := by
  refine ⟨processCollections_nodup scene main_collections [], ?_, ?_⟩
  · intro r hr
    obtain ⟨-, cn, hfind, heq⟩ := (processCollections_mem scene main_collections [] r).mp hr
    exact ⟨cn, hfind, heq⟩
  · intro n cn hfind
    refine (processCollections_mem scene main_collections [] _).mpr ⟨by simp, cn, ?_, rfl⟩
    simpa [firstCollectionFor] using hfind

/-- C5 witness: with "Heart" present in both the skeletal and the muscular
collection, the single Heart record is the one derived from the first
collection processed. -/
theorem c5_witness :
    mkPartEntry (determine_system "1: Skeletal system" "") "Heart" ∈
      extract_ontology [("1: Skeletal system", [⟨"MESH", "Heart"⟩]),
                        ("4: Muscular system", [⟨"MESH", "Heart"⟩])] :=
  (c5_global_dedup _).2.2 "Heart" "1: Skeletal system" (by decide)

/-- C8: every record of one collection's object loop carries that
collection's system and model path (the object's own name never enters
classification), and every output record's system is
`determine_system cn ""` for one of the five main collections. -/
theorem c8_system_uniform_per_collection :
    (∀ (system : String) (objs : List Obj) (P : List String),
        ∀ r ∈ (processObjs system objs P).1,
          r.system = system ∧ r.modelPath = modelPathFor system) ∧
    (∀ (scene : Scene), ∀ r ∈ extract_ontology scene, ∃ cn ∈ main_collections,
        r.system = determine_system cn "" ∧
        r.modelPath = modelPathFor (determine_system cn "")) := by
  constructor
  · intro system objs P r hr
    obtain ⟨heq, -, -⟩ := (processObjs_fst_mem system objs P r).mp hr
    exact ⟨by rw [heq]; rfl, by rw [heq]; rfl⟩
  · intro scene r hr
    obtain ⟨-, cn, hfind, heq⟩ := (processCollections_mem scene main_collections [] r).mp hr
    exact ⟨cn, List.mem_of_find?_eq_some hfind, by rw [heq]; rfl, by rw [heq]; rfl⟩

/-- C8 witness: the single record of a one-object collection carries the
collection's system and corresponding model path. -/
theorem c8_witness :
    (mkPartEntry "NERVOUS" "A").system = "NERVOUS" ∧
    (mkPartEntry "NERVOUS" "A").modelPath = modelPathFor "NERVOUS" :=
  c8_system_uniform_per_collection.1 "NERVOUS" [⟨"MESH", "A"⟩] []
    (mkPartEntry "NERVOUS" "A") (by decide)

/-- Removing an absent collection name from the traversal list does not
change the output. -/
theorem processCollections_skip_absent (scene : Scene) (cn : String)
    (habs : lookupCollection scene cn = none) :
    ∀ (pre post : List String) (P : List String),
      processCollections scene (pre ++ cn :: post) P =
        processCollections scene (pre ++ post) P := by
  intro pre
  induction pre with
  | nil =>
    intro post P
    simp only [List.nil_append, processCollections, habs]
  | cons c pre' ih =>
    intro post P
    cases h : lookupCollection scene c with
    | none =>
      simp only [List.cons_append, processCollections, h]
      exact ih post P
    | some objs =>
      simp only [List.cons_append, processCollections, h, List.append_eq]
      rw [ih]

/-- C10: when one of the five expected main collections is absent from the
scene, the run is exactly the run over the remaining collections — the
missing collection contributes no objects and nothing aborts. -/
theorem c10_missing_collection (scene : Scene) (pre post : List String) (cn : String)
    (hsplit : main_collections = pre ++ cn :: post)
    (habs : lookupCollection scene cn = none) :
    extract_ontology scene = processCollections scene (pre ++ post) [] := by
  rw [extract_ontology, hsplit, processCollections_skip_absent scene cn habs]

/-- C10 witness: a scene without "1: Skeletal system" extracts exactly as the
remaining four collections do. -/
theorem c10_witness :
    extract_ontology [("4: Muscular system", [⟨"MESH", "Biceps"⟩])] =
      processCollections [("4: Muscular system", [⟨"MESH", "Biceps"⟩])]
        ["4: Muscular system", "5: Cardiovascular system",
         "7: Nervous system & Sense organs", "8: Visceral systems"] [] :=
  c10_missing_collection _ [] _ "1: Skeletal system" (by decide) (by decide)

theorem toNat_ofNat_of_lt {n : Nat} (h : n < 55296) : (Char.ofNat n).toNat = n := by
  have hv : n.isValidChar := Or.inl h
  rw [Char.ofNat, dif_pos hv]
  rfl

theorem toNat_lowerChar (c : Char) :
    (lowerChar c).toNat =
      if 65 ≤ c.toNat ∧ c.toNat ≤ 90 then c.toNat + 32 else c.toNat := by
  unfold lowerChar
  split
  · rename_i h
    exact toNat_ofNat_of_lt (by omega)
  · rfl

theorem lowerChar_fixed (c : Char) (h : ¬(65 ≤ c.toNat ∧ c.toNat ≤ 90)) :
    lowerChar c = c := if_neg h

theorem lowerChar_idem (c : Char) : lowerChar (lowerChar c) = lowerChar c := by
  apply lowerChar_fixed
  rw [toNat_lowerChar]
  split <;> rename_i h <;> omega

theorem word_of_keep_not_hs (c : Char) (hk : keepChar c = true)
    (hh : isHyphenSpace c = false) : isWordChar c = true := by
  simp only [keepChar, isHyphenSpace, isSpaceChar, isWordChar, Bool.or_eq_true,
    Bool.and_eq_true, Bool.or_eq_false_iff, decide_eq_true_eq, beq_iff_eq,
    beq_eq_false_iff_ne, ne_eq] at hk hh ⊢
  omega

theorem keep_of_word (c : Char) (hw : isWordChar c = true) : keepChar c = true := by
  simp only [keepChar, Bool.or_eq_true]
  exact Or.inl (Or.inl hw)

theorem not_hs_of_word (c : Char) (hw : isWordChar c = true) :
    isHyphenSpace c = false := by
  simp only [isWordChar, isHyphenSpace, isSpaceChar, Bool.or_eq_true, Bool.and_eq_true,
    decide_eq_true_eq, beq_iff_eq] at hw ⊢
  simp only [Bool.or_eq_false_iff, beq_eq_false_iff_ne, ne_eq]
  omega

theorem mem_collapseAux (b : Bool) (m : List Char) (c : Char)
    (hc : c ∈ collapseAux b m) : c = '_' ∨ (c ∈ m ∧ isHyphenSpace c = false) := by
  induction m generalizing b with
  | nil => simp [collapseAux] at hc
  | cons d ds ih =>
    by_cases hd : isHyphenSpace d = true
    · rw [collapseAux, if_pos hd] at hc
      cases b with
      | true =>
        rcases ih true hc with h | ⟨hm, hh⟩
        · exact Or.inl h
        · exact Or.inr ⟨List.mem_cons_of_mem d hm, hh⟩
      | false =>
        rcases List.mem_cons.mp hc with rfl | hc'
        · exact Or.inl rfl
        · rcases ih true hc' with h | ⟨hm, hh⟩
          · exact Or.inl h
          · exact Or.inr ⟨List.mem_cons_of_mem d hm, hh⟩
    · rw [collapseAux, if_neg hd] at hc
      rcases List.mem_cons.mp hc with rfl | hc'
      · exact Or.inr ⟨List.mem_cons_self c ds, by simpa using hd⟩
      · rcases ih false hc' with h | ⟨hm, hh⟩
        · exact Or.inl h
        · exact Or.inr ⟨List.mem_cons_of_mem d hm, hh⟩

theorem mem_stripUnderscores (m : List Char) (c : Char)
    (hc : c ∈ stripUnderscores m) : c ∈ m := by
  unfold stripUnderscores at hc
  rw [List.mem_reverse] at hc
  have h1 := (List.dropWhile_suffix (fun x => x == '_')).subset hc
  rw [List.mem_reverse] at h1
  exact (List.dropWhile_suffix (fun x => x == '_')).subset h1

/-- Every character of a normalized identifier is a word character that
lowercasing leaves unchanged. -/
theorem normalize_chars_good (s : String) :
    ∀ c ∈ (normalize_part_id s).data, isWordChar c = true ∧ lowerChar c = c := by
  intro c hc
  have hc1 : c ∈ collapseAux false ((s.data.map lowerChar).filter keepChar) :=
    mem_stripUnderscores _ _ hc
  rcases mem_collapseAux _ _ _ hc1 with rfl | ⟨hm, hhs⟩
  · exact ⟨by decide, by decide⟩
  · have hk : keepChar c = true := List.of_mem_filter hm
    have hmm : c ∈ s.data.map lowerChar := List.mem_of_mem_filter hm
    rcases List.mem_map.mp hmm with ⟨d, -, rfl⟩
    exact ⟨word_of_keep_not_hs _ hk hhs, lowerChar_idem d⟩

theorem map_fixed {α : Type} (f : α → α) (m : List α) (h : ∀ c ∈ m, f c = c) :
    m.map f = m := by
  induction m with
  | nil => rfl
  | cons d ds ih =>
    rw [List.map_cons, h d (List.mem_cons_self d ds),
      ih (fun c hc => h c (List.mem_cons_of_mem d hc))]

theorem collapseAux_id (m : List Char) (h : ∀ c ∈ m, isHyphenSpace c = false) :
    ∀ b, collapseAux b m = m := by
  induction m with
  | nil => intro b; rfl
  | cons d ds ih =>
    intro b
    rw [collapseAux, if_neg (by simp [h d (List.mem_cons_self d ds)]),
      ih (fun c hc => h c (List.mem_cons_of_mem d hc)) false]

theorem dropWhile_self {α : Type} (p : α → Bool) (l : List α) :
    (l.dropWhile p).dropWhile p = l.dropWhile p := by
  induction l with
  | nil => rfl
  | cons c cs ih =>
    by_cases h : p c = true
    · rw [List.dropWhile_cons_of_pos h, ih]
    · rw [List.dropWhile_cons_of_neg (by simpa using h),
        List.dropWhile_cons_of_neg (by simpa using h)]

theorem dropWhile_eq_self_of_head? {α : Type} (p : α → Bool) (l : List α)
    (h : ∀ x, l.head? = some x → p x = false) : l.dropWhile p = l := by
  cases l with
  | nil => rfl
  | cons c cs =>
    exact List.dropWhile_cons_of_neg (by simp [h c rfl])

theorem head?_dropWhile_false {α : Type} (p : α → Bool) (l : List α) (x : α)
    (hx : (l.dropWhile p).head? = some x) : p x = false := by
  have h := List.head?_dropWhile_not p l
  rw [hx] at h
  exact h

theorem stripUnderscores_idem (m : List Char) :
    stripUnderscores (stripUnderscores m) = stripUnderscores m := by
  unfold stripUnderscores
  have hrev :
      ((((m.dropWhile (· == '_')).reverse.dropWhile (· == '_')).reverse).reverse).dropWhile
          (· == '_') =
        ((m.dropWhile (· == '_')).reverse.dropWhile (· == '_')).reverse.reverse := by
    rw [List.reverse_reverse, dropWhile_self]
  have hhead :
      (((m.dropWhile (· == '_')).reverse.dropWhile (· == '_')).reverse).dropWhile
          (· == '_') =
        ((m.dropWhile (· == '_')).reverse.dropWhile (· == '_')).reverse := by
    apply dropWhile_eq_self_of_head?
    intro x hx
    rw [List.head?_reverse] at hx
    obtain ⟨t, ht⟩ := List.dropWhile_suffix (l := (m.dropWhile (· == '_')).reverse)
      (fun c => c == '_')
    have hB : ((m.dropWhile (· == '_')).reverse.dropWhile (· == '_')) ≠ [] := by
      intro hnil
      rw [hnil] at hx
      simp at hx
    have h2 : (m.dropWhile (· == '_')).reverse.getLast? = some x := by
      rw [← ht, List.getLast?_append_of_ne_nil _ hB, hx]
    rw [List.getLast?_reverse] at h2
    exact head?_dropWhile_false _ m x h2
  rw [hhead, hrev, List.reverse_reverse]

/-- C9: `normalize_part_id` is idempotent. -/
theorem c9_normalize_idempotent (name : String) :
    normalize_part_id (normalize_part_id name) = normalize_part_id name := by
  have hg := normalize_chars_good name
  have h1 : (normalize_part_id name).data.map lowerChar = (normalize_part_id name).data :=
    map_fixed _ _ (fun c hc => (hg c hc).2)
  have h2 : ((normalize_part_id name).data).filter keepChar = (normalize_part_id name).data :=
    List.filter_eq_self.mpr (fun c hc => keep_of_word c (hg c hc).1)
  have h3 : collapseAux false ((normalize_part_id name).data) = (normalize_part_id name).data :=
    collapseAux_id _ (fun c hc => not_hs_of_word c (hg c hc).1) false
  calc normalize_part_id (normalize_part_id name)
      = ⟨stripUnderscores (collapseAux false
          (((normalize_part_id name).data.map lowerChar).filter keepChar))⟩ := rfl
    _ = ⟨stripUnderscores ((normalize_part_id name).data)⟩ := by rw [h1, h2, h3]
    _ = ⟨stripUnderscores (stripUnderscores (collapseAux false
          ((name.data.map lowerChar).filter keepChar)))⟩ := rfl
    _ = ⟨stripUnderscores (collapseAux false
          ((name.data.map lowerChar).filter keepChar))⟩ := by rw [stripUnderscores_idem]
    _ = normalize_part_id name := rfl

end ZAnatomy
